import Mathlib

/-!
# Verification of the ALM extraction engine

Shallow embedding of the recursive hierarchical extraction engine of the
`alm_extraction_tool` repository: the paginated fetch client, the entity
normalizer, the collection router, the one-level expander, the recursive
extractor with its depth ceiling and job tracking, the attachment
materializer, and the cached-fallback endpoint error handling.

The definitions follow the source's design documents, which carry the
pseudocode of the backend (`backend/app/alm.py`, `backend/app/main.py`):
`docs/PYENV_SETUP.md` (pagination loop), `docs/ALM_API_CONFIGURATION.md`
(API configs, `parse_alm_response_to_entity`, `extract_folder_tree`),
`docs/IMPLEMENTATION_PLAN.md` (`store_attachment`, extraction jobs),
`docs/API_FLOW_ARCHITECTURE.md` (endpoint template, attachment handling,
error fallback), and the endpoint specification document.
-/

set_option autoImplicit false

namespace AlmExtraction

/-! ## Paginated fetch client (docs/PYENV_SETUP.md, "ALM Pagination Support")

The source loop:
```
all = []; start_index = 1; page_size = 100
while True:
    response = api_call(url, {"start-index": start_index})
    entities = extract(response)
    all.extend(entities)
    if len(entities) < page_size: break
    start_index += page_size
```
The upstream server is modelled as the full list of matching records; a
request at 1-based `offset` with page size `ps` returns the next `ps`
records starting there.  `fetchLoop` carries an explicit fuel (an upper
bound on the number of iterations, proved sufficient below) so that the
`while True` loop is a total function; every issued request is recorded
as a `ListCall`. -/

/-- One upstream list request as issued by the engine: its 1-based
start-index and its page-size parameter. -/
structure ListCall where
  offset : Nat
  pageSize : Nat
deriving DecidableEq, Repr

/-- The fixed page size from `ALM_API_CONFIGS` (`page_size: 100`). -/
def PAGE_SIZE : Nat := 100

/-- The upstream list endpoint: serve one page of at most `ps` records
starting at 1-based index `offset`. -/
def servePage {α : Type} (records : List α) (offset ps : Nat) : List α :=
  (records.drop (offset - 1)).take ps

/-- The pagination loop of `backend/app/alm.py` (docs/PYENV_SETUP.md):
accumulate each page, advance the start-index by the page size after a
full page, stop at the first page shorter than the page size.  Returns
the accumulated records and the list of requests issued. -/
def fetchLoop {α : Type} (records : List α) (offset ps fuel : Nat) :
    List α × List ListCall :=
  match fuel with
  | 0 => ([], [])
  | Nat.succ f =>
    let pg := servePage records offset ps
    if pg.length = ps then
      let rest := fetchLoop records (offset + ps) ps f
      (pg ++ rest.1, ⟨offset, ps⟩ :: rest.2)
    else
      (pg, [⟨offset, ps⟩])

/-- `fetchAll`: run the pagination loop from start-index 1 with the
configured page size 100.  `records.length + 1` units of fuel are always
sufficient (each iteration except the last consumes 100 records). -/
def fetchAll {α : Type} (records : List α) : List α × List ListCall :=
  fetchLoop records 1 PAGE_SIZE (records.length + 1)

/-- Splitting the arithmetic sequence of request offsets at its head. -/
theorem callList_cons (off n : Nat) :
    (List.range (n + 1)).map (fun k => ListCall.mk (off + 100 * k) 100) =
      ListCall.mk off 100 ::
        (List.range n).map (fun k => ListCall.mk (off + 100 + 100 * k) 100) := by
  rw [List.range_succ_eq_map, List.map_cons, List.map_map]
  refine congrArg₂ List.cons (by simp) ?_
  apply List.map_congr_left
  intro a _
  simp only [Function.comp_apply]
  congr 1
  omega

/-- Characterization of the pagination loop at page size 100: from any
1-based offset with sufficient fuel it returns exactly the remaining
records, issuing one call per 100 remaining records plus a final short
page, at offsets spaced exactly 100 apart. -/
theorem fetchLoop_spec {α : Type} (records : List α) :
    ∀ fuel offset, 1 ≤ offset →
    (records.drop (offset - 1)).length / 100 < fuel →
    fetchLoop records offset 100 fuel =
      (records.drop (offset - 1),
       (List.range ((records.drop (offset - 1)).length / 100 + 1)).map
         (fun k => ⟨offset + 100 * k, 100⟩)) := by
  intro fuel
  induction fuel with
  | zero => intro offset _ h; omega
  | succ f ih =>
    intro offset hoff hfuel
    have hdrop : records.drop (offset + 100 - 1) =
        (records.drop (offset - 1)).drop 100 := by
      rw [List.drop_drop]
      congr 1
      omega
    by_cases hlen : 100 ≤ (records.drop (offset - 1)).length
    · -- a full page: the loop advances the offset by 100 and repeats
      have hpg : (servePage records offset 100).length = 100 := by
        simp only [servePage, List.length_take]
        omega
      have hrec : (records.drop (offset + 100 - 1)).length / 100 < f := by
        rw [hdrop]
        simp only [List.length_drop] at hfuel hlen ⊢
        omega
      have hstep := ih (offset + 100) (by omega) hrec
      simp only [fetchLoop]
      rw [if_pos hpg, hstep, hdrop]
      have hc : ((records.drop (offset - 1)).drop 100).length / 100 + 1 =
          (records.drop (offset - 1)).length / 100 := by
        simp only [List.length_drop] at hlen ⊢
        omega
      rw [hc, callList_cons]
      simp only [servePage]
      rw [List.take_append_drop]
    · -- a short page (fewer than 100 records): the loop stops here
      have hpg : ¬ (servePage records offset 100).length = 100 := by
        simp only [servePage, List.length_take]
        omega
      have hq : (records.drop (offset - 1)).length / 100 = 0 :=
        Nat.div_eq_of_lt (by omega)
      simp only [fetchLoop]
      rw [if_neg hpg, hq]
      simp only [servePage]
      rw [List.take_of_length_le (by omega)]
      simp [List.range_succ]

/-- The fuel in `fetchAll` is sufficient, and the loop returns the
complete record list; the calls are at offsets `1, 101, 201, …`. -/
theorem fetchAll_spec {α : Type} (records : List α) :
    fetchAll records =
      (records,
       (List.range (records.length / 100 + 1)).map
         (fun k => ⟨1 + 100 * k, 100⟩)) := by
  have h := fetchLoop_spec records (records.length + 1) 1 (le_refl 1)
    (by simp only [Nat.sub_self, List.drop_zero]; omega)
  simp only [Nat.sub_self, List.drop_zero] at h
  simpa only [fetchAll, PAGE_SIZE] using h

/-- C1 (counterexample): for an upstream endpoint holding exactly
`N = 100` matching records, the pagination loop issues 2 round trips —
one full page of 100, then an empty page that stops the loop — whereas
the claimed bound `ceil(N/100) = (100 + 100 - 1) / 100 = 1` would demand
a single round trip.  The loop cannot stop after a full page because it
learns that the page was the last one only from a subsequent short page. -/
theorem fetchAll_roundtrips_ne_ceil :
    (fetchAll (List.range 100)).2.length = 2 ∧
      ¬ (fetchAll (List.range 100)).2.length = (100 + 100 - 1) / 100 := by
  constructor
  · rw [fetchAll_spec]
    simp
  · rw [fetchAll_spec]
    simp

/-- C1 (amended): for every upstream list endpoint holding `N` matching
records served in pages of at most 100, `fetchAll` terminates and
returns exactly the `N` records in order (hence no duplicates and no
gaps), starting at offset 1 with page size 100, advancing the offset by
100 after each page of exactly 100 records and stopping at the first
page with fewer than 100 records (including an empty page); it makes
`N / 100 + 1` round trips (equal to `ceil(N/100)` except when `N` is a
multiple of 100, where one extra short page is fetched). -/
theorem fetchAll_complete (α : Type) (records : List α) :
    (fetchAll records).1 = records ∧
      (fetchAll records).2.length = records.length / 100 + 1 := by
  rw [fetchAll_spec]
  simp

/-- C9: every upstream list call issued by the paginated fetch client
passes a page size of exactly 100, and the offsets (start-index values)
of the successive calls are exactly `1, 101, 201, …`: they begin at 1
and increase by exactly 100 per page. -/
theorem fetchAll_call_parameters (α : Type) (records : List α) :
    ((fetchAll records).2).map ListCall.pageSize =
        List.replicate ((fetchAll records).2).length 100 ∧
      ((fetchAll records).2).map ListCall.offset =
        (List.range ((fetchAll records).2).length).map (fun k => 1 + 100 * k) := by
  rw [fetchAll_spec]
  simp [List.map_map, Function.comp_def, List.map_const']


/-! ## Entity normalizer (docs/ALM_API_CONFIGURATION.md,
`ALMConfig.parse_alm_response_to_entity`)

A raw upstream record is the unordered list of name/value pairs of the
ALM response (`{"Fields": [{"Name": n, "values": [{"value": v}]}, …]}`),
modelled as an association list with each field's first value; raw field
names are taken in canonical form (the source's hyphen-to-underscore
renaming of `parent-id` is elided, it is not load-bearing here).  The
per-type field configuration (`ENTITY_FIELD_CONFIG`) fixes alias,
display order and visibility; the docs reproduce the `test-folders`
configuration verbatim: `user` (Username, display False), `id` (Folder
ID, True), `name` (Folder Name, True), `parent_id` (Parent Folder ID,
False), `description` (Description, True). -/

/-- One raw upstream record: field name/value pairs in original order. -/
def Raw : Type := List (String × String)

/-- First value of a named field in a raw record. -/
def lookupRaw (raw : Raw) (n : String) : Option String :=
  (List.find? (fun p => p.1 == n) raw).map Prod.snd

/-- One entry of the stored `fields` metadata array: field name, display
alias, display order, visibility flag, and the field's value. -/
structure FieldMeta where
  field : String
  fieldAlias : String
  sequence : Nat
  display : Bool
  value : String
deriving DecidableEq, Repr

/-- One entry of the static per-type field configuration table. -/
structure FieldConfig where
  field : String
  fieldAlias : String
  display : Bool
deriving DecidableEq, Repr

/-- `ALMConfig.ENTITY_FIELD_CONFIG`: the static per-type field
configuration.  The `test-folders` row is reproduced verbatim from
docs/ALM_API_CONFIGURATION.md; the other documented types follow the
same mandatory-field pattern (`user` and `parent_id` not displayed,
`id` and `name` displayed), shown in the docs' generic entity example. -/
def ENTITY_FIELD_CONFIG : String → List FieldConfig
  | "test-folders" =>
      [⟨"user", "Username", false⟩,
       ⟨"id", "Folder ID", true⟩,
       ⟨"name", "Folder Name", true⟩,
       ⟨"parent_id", "Parent Folder ID", false⟩,
       ⟨"description", "Description", true⟩]
  | "tests" =>
      [⟨"user", "Username", false⟩,
       ⟨"id", "Test ID", true⟩,
       ⟨"name", "Test Name", true⟩,
       ⟨"parent_id", "Parent Folder ID", false⟩]
  | "design-steps" =>
      [⟨"user", "Username", false⟩,
       ⟨"id", "Step ID", true⟩,
       ⟨"name", "Step Name", true⟩,
       ⟨"parent_id", "Parent Test ID", false⟩]
  | "attachments" =>
      [⟨"user", "Username", false⟩,
       ⟨"id", "Attachment ID", true⟩,
       ⟨"name", "File Name", true⟩,
       ⟨"parent_id", "Parent ID", false⟩]
  | _ => []

/-- A standardized entity record: the mandatory top-level fields plus
the complete `fields` metadata array. -/
structure Entity where
  user : String
  id : String
  name : String
  parent_id : String
  entity_type : String
  fields : List FieldMeta
deriving DecidableEq, Repr

/-- Value of a configured field: `user` comes from the `username` call
argument, `parent_id` from the `parent_id` call argument (the endpoint
handlers pass `request.parent_id`), every other field from the raw
record. -/
def fieldValue (raw : Raw) (username pid f : String) : String :=
  if f = "user" then username
  else if f = "parent_id" then pid
  else (lookupRaw raw f).getD ""

/-- `ALMConfig.parse_alm_response_to_entity`: convert one raw upstream
record into a standardized entity.  Configured fields appear first, in
configuration order with 1-based sequence numbers; raw fields absent
from the configuration are still carried through (full fidelity),
flagged not-visible, placed after the configured fields in original
order. -/
def parse_alm_response_to_entity (endpoint_name : String) (raw : Raw)
    (username parent_id : String) : Entity :=
  let cfg := ENTITY_FIELD_CONFIG endpoint_name
  let configured := cfg.enum.map (fun p =>
    ⟨p.2.field, p.2.fieldAlias, p.1 + 1, p.2.display,
     fieldValue raw username parent_id p.2.field⟩)
  let extraRaw := raw.filter (fun p => !(cfg.any (fun c => c.field == p.1)))
  let extras : List FieldMeta := extraRaw.enum.map (fun p =>
    ⟨p.2.1, p.2.1, cfg.length + p.1 + 1, false, p.2.2⟩)
  { user := username,
    id := (lookupRaw raw "id").getD "",
    name := (lookupRaw raw "name").getD "",
    parent_id := parent_id,
    entity_type := endpoint_name,
    fields := configured ++ extras }

/-- `ALMConfig.entity_to_display_format`: only fields with
`display = true`, with aliases as keys (the `fields` array is already
in sequence order). -/
def entity_to_display_format (e : Entity) : List (String × String) :=
  (e.fields.filter (fun f => f.display)).map (fun f => (f.fieldAlias, f.value))

/-- The raw test-folder record of the worked example in
docs/ALM_API_CONFIGURATION.md ("Parsing ALM Response to Standardized
Entity"). -/
def docRawFolder : Raw :=
  [("id", "123"), ("name", "Test Folder 1"), ("parent_id", "0"),
   ("description", "Root folder")]

/-- The claim's property as a decidable check: every metadata entry for
one of the four mandatory fields is marked `display = true`. -/
def mandatoryAllVisible (e : Entity) : Bool :=
  e.fields.all (fun f =>
    !(f.field == "id" || f.field == "name" || f.field == "parent_id"
      || f.field == "user") || f.display)

/-- C8 (counterexample): normalizing the documentation's own
test-folders example record yields `display = false` on the `user` and
`parent_id` metadata entries, so the four mandatory fields are NOT all
marked visible; the docs explicitly note that `user` (Username) and
`parent_id` (Parent Folder ID) are excluded from the display format. -/
theorem parse_mandatory_not_all_visible :
    mandatoryAllVisible
      (parse_alm_response_to_entity "test-folders" docRawFolder
        "john.doe" "0") = false := by
  decide

/-- The entity types whose field configurations are embedded in
`ENTITY_FIELD_CONFIG` (the `test-folders` row verbatim from the docs,
the others following the docs' documented mandatory-field pattern). -/
def configuredEntityTypes : List String :=
  ["test-folders", "tests", "design-steps", "attachments"]

/-- C8 (amended): for every entity type and raw record, normalization
always populates the mandatory fields `id`, `name`, `parent_id`,
`user` at top level — `user` and `parent_id` from the call arguments,
`id` and `name` from the raw record; and for every entity type with a
documented field configuration, the four mandatory fields also head
the fields metadata in that order — but only `id` and `name` are
marked visible (`display = true`), while `user` and `parent_id` carry
`display = false` and are therefore excluded from the display format. -/
theorem parse_mandatory_fields (etype : String) (raw : Raw)
    (username pid : String) :
    ((parse_alm_response_to_entity etype raw username pid).user = username ∧
      (parse_alm_response_to_entity etype raw username pid).parent_id = pid ∧
      (parse_alm_response_to_entity etype raw username pid).id
        = (lookupRaw raw "id").getD "" ∧
      (parse_alm_response_to_entity etype raw username pid).name
        = (lookupRaw raw "name").getD "") ∧
    (etype ∈ configuredEntityTypes →
      ((parse_alm_response_to_entity etype raw username pid).fields.take 4).map
          (fun f => (f.field, f.display, f.value)) =
        [("user", false, username),
         ("id", true, (lookupRaw raw "id").getD ""),
         ("name", true, (lookupRaw raw "name").getD ""),
         ("parent_id", false, pid)]) := by
  refine ⟨⟨rfl, rfl, rfl, rfl⟩, ?_⟩
  intro hmem
  simp only [configuredEntityTypes, List.mem_cons, List.not_mem_nil,
    or_false] at hmem
  rcases hmem with rfl | rfl | rfl | rfl <;>
    simp [parse_alm_response_to_entity, ENTITY_FIELD_CONFIG, List.enum,
      fieldValue, lookupRaw]

/-- C8 witness: the amended theorem applied to the documentation's own
test-folders example record. -/
theorem parse_mandatory_fields_witness :
    ("test-folders" ∈ configuredEntityTypes) ∧
    (((parse_alm_response_to_entity "test-folders" docRawFolder
          "john.doe" "0").user = "john.doe" ∧
        (parse_alm_response_to_entity "test-folders" docRawFolder
          "john.doe" "0").parent_id = "0" ∧
        (parse_alm_response_to_entity "test-folders" docRawFolder
          "john.doe" "0").id = (lookupRaw docRawFolder "id").getD "" ∧
        (parse_alm_response_to_entity "test-folders" docRawFolder
          "john.doe" "0").name = (lookupRaw docRawFolder "name").getD "") ∧
      ("test-folders" ∈ configuredEntityTypes →
        ((parse_alm_response_to_entity "test-folders" docRawFolder
            "john.doe" "0").fields.take 4).map
            (fun f => (f.field, f.display, f.value)) =
          [("user", false, "john.doe"),
           ("id", true, (lookupRaw docRawFolder "id").getD ""),
           ("name", true, (lookupRaw docRawFolder "name").getD ""),
           ("parent_id", false, "0")])) :=
  ⟨by decide,
   parse_mandatory_fields "test-folders" docRawFolder "john.doe" "0"⟩

/-! ## Keyed upserts on one collection

Each MongoDB write in the endpoint handlers is
`collection.replace_one(key_filter, doc, upsert=True)`: replace the
first document matching the key in place, or insert the document if no
match exists.  A collection is a list of documents; the machinery below
is generic in the document type and its key. -/

section Upserts

variable {κ α : Type} [DecidableEq κ]

/-- `replace_one(filter, doc, upsert=True)`: replace the first document
whose key is `k` in place, or append `a` if no document matches. -/
def replaceOne (key : α → κ) (k : κ) (a : α) : List α → List α
  | [] => [a]
  | d :: ds => if key d = k then a :: ds else d :: replaceOne key k a ds

/-- A batch of keyed upserts applied left to right. -/
def applyWrites (key : α → κ) (ws : List (κ × α)) (l : List α) : List α :=
  ws.foldl (fun acc w => replaceOne key w.1 w.2 acc) l

/-- First document with the given key (`find_one` on the key filter). -/
def getAt (key : α → κ) (l : List α) (k : κ) : Option α :=
  match l with
  | [] => none
  | d :: ds => if key d = k then some d else getAt key ds k

/-- Last value written to key `k` by a batch, if any. -/
def lastWrite (ws : List (κ × α)) (k : κ) : Option α :=
  match ws with
  | [] => none
  | w :: ws => (lastWrite ws k).or (if w.1 = k then some w.2 else none)

/-- A batch is well-keyed when every write carries its document's own
key (as every `replace_one` in the endpoint handlers does). -/
def WellKeyed (key : α → κ) (ws : List (κ × α)) : Prop :=
  ∀ w ∈ ws, key w.2 = w.1

theorem applyWrites_nil (key : α → κ) (l : List α) :
    applyWrites key [] l = l := rfl

theorem applyWrites_cons (key : α → κ) (w : κ × α) (ws : List (κ × α))
    (l : List α) :
    applyWrites key (w :: ws) l = applyWrites key ws (replaceOne key w.1 w.2 l) :=
  rfl

/-- Upserting a key already present leaves the key sequence unchanged. -/
theorem keys_replaceOne_of_mem (key : α → κ) {k : κ} {a : α} (hk : key a = k) :
    ∀ {l : List α}, k ∈ l.map key → (replaceOne key k a l).map key = l.map key := by
  intro l
  induction l with
  | nil => simp
  | cons d ds ih =>
    intro hmem
    by_cases hd : key d = k
    · simp [replaceOne, hd, hk]
    · have : k ∈ ds.map key := by
        simp only [List.map_cons, List.mem_cons] at hmem
        tauto
      simp [replaceOne, hd, ih this]

/-- Upserting an absent key appends the document. -/
theorem replaceOne_of_not_mem (key : α → κ) {k : κ} (a : α) :
    ∀ {l : List α}, k ∉ l.map key → replaceOne key k a l = l ++ [a] := by
  intro l
  induction l with
  | nil => simp [replaceOne]
  | cons d ds ih =>
    intro hmem
    simp only [List.map_cons, List.mem_cons, not_or] at hmem
    have hd : ¬ key d = k := fun h => hmem.1 h.symm
    simp [replaceOne, hd, ih hmem.2]

/-- After the upsert, the document at the key is the upserted one. -/
theorem getAt_replaceOne_self (key : α → κ) {k : κ} {a : α} (hk : key a = k)
    (l : List α) : getAt key (replaceOne key k a l) k = some a := by
  induction l with
  | nil => simp [replaceOne, getAt, hk]
  | cons d ds ih =>
    by_cases hd : key d = k
    · simp [replaceOne, hd, getAt, hk]
    · simpa [replaceOne, hd, getAt] using ih

/-- The upsert leaves every other key's document unchanged. -/
theorem getAt_replaceOne_ne (key : α → κ) {k k' : κ} {a : α} (hk : key a = k)
    (hne : k' ≠ k) (l : List α) :
    getAt key (replaceOne key k a l) k' = getAt key l k' := by
  induction l with
  | nil => simp [replaceOne, getAt, hk, hne, Ne.symm hne]
  | cons d ds ih =>
    by_cases hd : key d = k
    · have ha : ¬ key a = k' := by rw [hk]; exact Ne.symm hne
      have hd' : ¬ key d = k' := by rw [hd]; exact Ne.symm hne
      simp [replaceOne, hd, getAt, ha, hd', Ne.symm hne]
    · by_cases hd' : key d = k'
      · simp [replaceOne, hd, getAt, hd', hne]
      · simpa [replaceOne, hd, getAt, hd'] using ih

/-- The upserted key is present afterwards. -/
theorem mem_keys_replaceOne (key : α → κ) {k : κ} {a : α} (hk : key a = k)
    (l : List α) : k ∈ (replaceOne key k a l).map key := by
  induction l with
  | nil => simp [replaceOne, hk]
  | cons d ds ih =>
    by_cases hd : key d = k
    · simp [replaceOne, hd, hk]
    · simp only [replaceOne, hd, if_false, List.map_cons, List.mem_cons]
      right
      exact ih

/-- Upserts never remove keys. -/
theorem mem_keys_replaceOne_mono (key : α → κ) {k k' : κ} {a : α}
    (hk : key a = k) (l : List α) (h : k' ∈ l.map key) :
    k' ∈ (replaceOne key k a l).map key := by
  by_cases hmem : k ∈ l.map key
  · rw [keys_replaceOne_of_mem key hk hmem]
    exact h
  · rw [replaceOne_of_not_mem key a hmem]
    simp only [List.map_append, List.mem_append]
    left
    exact h

/-- Upserts preserve key uniqueness. -/
theorem nodup_keys_replaceOne (key : α → κ) {k : κ} {a : α} (hk : key a = k)
    (l : List α) (h : (l.map key).Nodup) :
    ((replaceOne key k a l).map key).Nodup := by
  by_cases hmem : k ∈ l.map key
  · rw [keys_replaceOne_of_mem key hk hmem]
    exact h
  · rw [replaceOne_of_not_mem key a hmem]
    simp [List.nodup_append, h, hk, hmem]

end Upserts

section UpsertBatch

variable {κ α : Type} [DecidableEq κ]

/-- Lookup after a batch of upserts: the last write to the key wins,
otherwise the document is unchanged. -/
theorem getAt_applyWrites (key : α → κ) (ws : List (κ × α))
    (hw : WellKeyed key ws) (l : List α) (k : κ) :
    getAt key (applyWrites key ws l) k = (lastWrite ws k).or (getAt key l k) := by
  induction ws generalizing l with
  | nil => simp [applyWrites, lastWrite]
  | cons w ws ih =>
    have hw' : WellKeyed key ws := fun x hx => hw x (List.mem_cons_of_mem _ hx)
    have hkey : key w.2 = w.1 := hw w (List.mem_cons_self _ _)
    rw [applyWrites_cons, ih hw']
    by_cases hk : w.1 = k
    · subst hk
      rw [getAt_replaceOne_self key hkey]
      cases h : lastWrite ws w.1 <;> simp [lastWrite, h, Option.or]
    · have hne : k ≠ w.1 := fun h => hk h.symm
      rw [getAt_replaceOne_ne key hkey hne]
      cases h : lastWrite ws k <;> simp [lastWrite, h, hk, Option.or]

/-- A batch whose keys are all already present leaves the key sequence
of the collection unchanged. -/
theorem keys_applyWrites_of_mem (key : α → κ) (ws : List (κ × α))
    (hw : WellKeyed key ws) :
    ∀ l : List α, (∀ w ∈ ws, w.1 ∈ l.map key) →
      (applyWrites key ws l).map key = l.map key := by
  induction ws with
  | nil => intro l _; rfl
  | cons w ws ih =>
    intro l h
    have hw' : WellKeyed key ws := fun x hx => hw x (List.mem_cons_of_mem _ hx)
    have hkey : key w.2 = w.1 := hw w (List.mem_cons_self _ _)
    have hmem : w.1 ∈ l.map key := h w (List.mem_cons_self _ _)
    rw [applyWrites_cons, ih hw', keys_replaceOne_of_mem key hkey hmem]
    intro x hx
    rw [keys_replaceOne_of_mem key hkey hmem]
    exact h x (List.mem_cons_of_mem _ hx)

/-- Batches of upserts never remove keys. -/
theorem mem_keys_applyWrites_mono (key : α → κ) (ws : List (κ × α))
    (hw : WellKeyed key ws) {k' : κ} :
    ∀ l : List α, k' ∈ l.map key → k' ∈ (applyWrites key ws l).map key := by
  induction ws with
  | nil => intro l h; exact h
  | cons w ws ih =>
    intro l h
    have hw' : WellKeyed key ws := fun x hx => hw x (List.mem_cons_of_mem _ hx)
    have hkey : key w.2 = w.1 := hw w (List.mem_cons_self _ _)
    rw [applyWrites_cons]
    exact ih hw' _ (mem_keys_replaceOne_mono key hkey l h)

/-- After a batch, every written key is present. -/
theorem mem_keys_applyWrites_self (key : α → κ) (ws : List (κ × α))
    (hw : WellKeyed key ws) :
    ∀ l : List α, ∀ w ∈ ws, w.1 ∈ (applyWrites key ws l).map key := by
  induction ws with
  | nil => intro l w h; exact absurd h (List.not_mem_nil w)
  | cons w ws ih =>
    intro l x hx
    have hw' : WellKeyed key ws := fun y hy => hw y (List.mem_cons_of_mem _ hy)
    have hkey : key w.2 = w.1 := hw w (List.mem_cons_self _ _)
    rw [applyWrites_cons]
    rcases List.mem_cons.mp hx with hx | hx
    · subst hx
      exact mem_keys_applyWrites_mono key ws hw' _
        (mem_keys_replaceOne key hkey l)
    · exact ih hw' _ x hx

/-- Batches of upserts preserve key uniqueness. -/
theorem nodup_keys_applyWrites (key : α → κ) (ws : List (κ × α))
    (hw : WellKeyed key ws) :
    ∀ l : List α, (l.map key).Nodup → ((applyWrites key ws l).map key).Nodup := by
  induction ws with
  | nil => intro l h; exact h
  | cons w ws ih =>
    intro l h
    have hw' : WellKeyed key ws := fun x hx => hw x (List.mem_cons_of_mem _ hx)
    have hkey : key w.2 = w.1 := hw w (List.mem_cons_self _ _)
    rw [applyWrites_cons]
    exact ih hw' _ (nodup_keys_replaceOne key hkey l h)

/-- An absent key has no document. -/
theorem getAt_eq_none_of_not_mem (key : α → κ) {k : κ} :
    ∀ {l : List α}, k ∉ l.map key → getAt key l k = none := by
  intro l
  induction l with
  | nil => intro _; rfl
  | cons d ds ih =>
    intro h
    simp only [List.map_cons, List.mem_cons, not_or] at h
    have hd : ¬ key d = k := fun hh => h.1 hh.symm
    simp [getAt, hd, ih h.2]

/-- Two collections with unique keys, the same key sequence and the same
document at every key are equal. -/
theorem eq_of_keys_getAt (key : α → κ) :
    ∀ (l₁ l₂ : List α), (l₁.map key).Nodup → l₁.map key = l₂.map key →
      (∀ k, getAt key l₁ k = getAt key l₂ k) → l₁ = l₂ := by
  intro l₁
  induction l₁ with
  | nil =>
    intro l₂ _ hkeys _
    cases l₂ with
    | nil => rfl
    | cons d t => simp at hkeys
  | cons d t ih =>
    intro l₂ hnd hkeys hget
    cases l₂ with
    | nil => simp at hkeys
    | cons e t₂ =>
      simp only [List.map_cons, List.cons.injEq] at hkeys
      obtain ⟨hk, ht⟩ := hkeys
      have hde : d = e := by
        have h1 := hget (key d)
        simp only [getAt, if_pos rfl] at h1
        rw [if_pos hk.symm] at h1
        exact Option.some.inj h1
      subst hde
      simp only [List.map_cons, List.nodup_cons] at hnd
      have hget' : ∀ k, getAt key t k = getAt key t₂ k := by
        intro k
        by_cases hkk : key d = k
        · subst hkk
          rw [getAt_eq_none_of_not_mem key hnd.1,
            getAt_eq_none_of_not_mem key (ht ▸ hnd.1)]
        · have h2 := hget k
          simpa only [getAt, if_neg hkk] using h2
      exact congrArg (List.cons d) (ih t₂ hnd.2 ht hget')

/-- Replaying the same well-keyed batch of upserts a second time leaves
the collection unchanged: every key is already present with some value,
so the second pass rewrites documents in place and ends at the same
final value for every key. -/
theorem applyWrites_idem (key : α → κ) (ws : List (κ × α))
    (hw : WellKeyed key ws) (l : List α) (hnd : (l.map key).Nodup) :
    applyWrites key ws (applyWrites key ws l) = applyWrites key ws l := by
  refine eq_of_keys_getAt key _ _ ?_ ?_ ?_
  · exact nodup_keys_applyWrites key ws hw _ (nodup_keys_applyWrites key ws hw l hnd)
  · exact keys_applyWrites_of_mem key ws hw _ (mem_keys_applyWrites_self key ws hw l)
  · intro k
    rw [getAt_applyWrites key ws hw, getAt_applyWrites key ws hw]
    cases h : lastWrite ws k <;> simp [Option.or]

end UpsertBatch

/-! ## Document store and collection router

One list of documents per collection name, plus the attachment binary
cache (`attachment_cache`), whose documents are keyed by
`(user, attachment_id, parent_id, parent_type)` as in the
`expand_with_attachments` template of docs/API_FLOW_ARCHITECTURE.md.
Entity documents are keyed by `(user, id)` within their per-entity-type
collection, which realizes the `(owner_user, entity_type, id)`
uniqueness invariant. -/

/-- The upsert key of an entity document within its collection. -/
def entKey (e : Entity) : String × String := (e.user, e.id)

/-- One cached attachment binary (`attachment_cache` document). -/
structure CacheEntry where
  user : String
  attachment_id : String
  parent_id : String
  parent_type : String
  filename : String
  file_content : String
deriving DecidableEq, Repr

/-- The upsert key of an attachment cache document. -/
def cacheKey (c : CacheEntry) : String × String × String × String :=
  (c.user, c.attachment_id, c.parent_id, c.parent_type)

/-- The document store: entity collections by name, plus the binary
attachment cache. -/
@[ext]
structure Store where
  ents : String → List Entity
  cache : List CacheEntry

/-- The store with no documents. -/
def emptyStore : Store := { ents := fun _ => [], cache := [] }

/-- `collection.replace_one({"user": e["user"], "id": e["id"]}, e,
upsert=True)` on the named entity collection. -/
def upsertEnt (c : String) (e : Entity) (s : Store) : Store :=
  { s with ents := fun c' =>
      if c' = c then replaceOne entKey (entKey e) e (s.ents c') else s.ents c' }

/-- `attachment_cache.replace_one(key_filter, entry, upsert=True)`. -/
def upsertCache (ce : CacheEntry) (s : Store) : Store :=
  { s with cache := replaceOne cacheKey (cacheKey ce) ce s.cache }

/-- `ALMConfig.get_collection_name_from_entity_type` for non-attachment
kinds: the direct one-to-one mapping of docs/COLLECTION_RESTRUCTURE.md. -/
def resolveEntityCollection : String → Option String
  | "test-folders" => some "testplan_folders"
  | "tests" => some "testplan_tests"
  | "design-steps" => some "testplan_test_design_steps"
  | "releases" => some "testlab_releases"
  | "release-cycles" => some "testlab_release_cycles"
  | "test-sets" => some "testlab_testsets"
  | "test-runs" => some "testlab_testruns"
  | "defects" => some "defects"
  | _ => none

/-- Attachment routing by parent entity type
(docs/IMPLEMENTATION_PLAN.md, `store_attachment`): the same upstream
"attachment" kind lands in a different collection depending on its
parent kind; an unknown parent type is a configuration error. -/
def resolveAttachmentCollection : String → Option String
  | "test-folder" => some "testplan_folder_attachments"
  | "test" => some "testplan_test_attachments"
  | "design-step" => some "testplan_test_design_step_attachments"
  | "test-set" => some "testlab_testset_attachments"
  | "defect" => some "defect_attachments"
  | _ => none

/-- The five attachment parent kinds. -/
def attachmentParentKinds : List String :=
  ["test-folder", "test", "design-step", "test-set", "defect"]

/-- `store_attachment(attachment, parent_type)`: route the metadata
record to the collection of its parent kind; fail fast on an unknown
parent type. -/
def store_attachment (att : Entity) (parent_type : String) (s : Store) :
    Except String Store :=
  match resolveAttachmentCollection parent_type with
  | some col => .ok (upsertEnt col att s)
  | none => .error ("Unknown attachment parent type: " ++ parent_type)

/-- A sample attachment record for concrete instantiations. -/
def sampleAtt : Entity :=
  parse_alm_response_to_entity "attachments"
    [("id", "9"), ("name", "a.txt")] "alice" "100"

/-- C5: `resolveCollection` routes every attachment record to the
collection determined by its parent entity type exactly as documented
(test-folder, test, design-step, test-set, defect each to their own
collection); the routing is injective across the five parent kinds, and
storing an attachment under parent kind "test" leaves the
folder-attachment collection untouched and vice versa. -/
theorem attachment_collection_routing :
    (resolveAttachmentCollection "test-folder" = some "testplan_folder_attachments" ∧
     resolveAttachmentCollection "test" = some "testplan_test_attachments" ∧
     resolveAttachmentCollection "design-step" = some "testplan_test_design_step_attachments" ∧
     resolveAttachmentCollection "test-set" = some "testlab_testset_attachments" ∧
     resolveAttachmentCollection "defect" = some "defect_attachments") ∧
    (∀ p ∈ attachmentParentKinds, ∀ q ∈ attachmentParentKinds, p ≠ q →
      resolveAttachmentCollection p ≠ resolveAttachmentCollection q) ∧
    (∀ (att : Entity) (s s' : Store), store_attachment att "test" s = Except.ok s' →
      s'.ents "testplan_folder_attachments" = s.ents "testplan_folder_attachments") ∧
    (∀ (att : Entity) (s s' : Store), store_attachment att "test-folder" s = Except.ok s' →
      s'.ents "testplan_test_attachments" = s.ents "testplan_test_attachments") := by
  refine ⟨⟨rfl, rfl, rfl, rfl, rfl⟩, by decide, ?_, ?_⟩
  · intro att s s' h
    simp only [store_attachment, resolveAttachmentCollection, Except.ok.injEq] at h
    subst h
    simp only [upsertEnt]
    rw [if_neg (by decide)]
  · intro att s s' h
    simp only [store_attachment, resolveAttachmentCollection, Except.ok.injEq] at h
    subst h
    simp only [upsertEnt]
    rw [if_neg (by decide)]

/-- C5 witness: the routing theorem applied at parent kinds
"test-folder" and "test" and at a concrete attachment and store. -/
theorem attachment_collection_routing_witness :
    ("test-folder" ∈ attachmentParentKinds ∧ "test" ∈ attachmentParentKinds ∧
      ("test-folder" : String) ≠ "test") ∧
    resolveAttachmentCollection "test-folder" ≠ resolveAttachmentCollection "test" ∧
    (store_attachment sampleAtt "test" emptyStore =
        Except.ok (upsertEnt "testplan_test_attachments" sampleAtt emptyStore) ∧
      (upsertEnt "testplan_test_attachments" sampleAtt emptyStore).ents
          "testplan_folder_attachments" =
        emptyStore.ents "testplan_folder_attachments") :=
  ⟨⟨by decide, by decide, by decide⟩,
   attachment_collection_routing.2.1 "test-folder" (by decide) "test" (by decide) (by decide),
   rfl,
   attachment_collection_routing.2.2.1 sampleAtt emptyStore
     (upsertEnt "testplan_test_attachments" sampleAtt emptyStore) rfl⟩

/-! ## Level expander (endpoint 6, `POST /api/expand_testplan_folder`)

Fetch subfolders, tests and folder attachments of one folder; parse and
upsert each; for each attachment also download the binary into
`attachment_cache`; finally query MongoDB for the counts and return the
counts only ("ONE level expansion"). -/

/-- The upstream responses consumed by one folder expansion. -/
structure ExpandEnv where
  subfolders : List Raw
  tests : List Raw
  attachments : List Raw
  download : String → Except String String

/-- The aggregate counts returned by a folder expansion. -/
structure ExpandCounts where
  subfolders : Nat
  tests : Nat
  attachments : Nat
deriving DecidableEq, Repr

/-- `count_documents({"user": u, "parent_id": pid})`. -/
def countMatching (l : List Entity) (u pid : String) : Nat :=
  (l.filter (fun d => d.user == u && d.parent_id == pid)).length

/-- Parse and upsert every raw child record into the collection `col`
(the per-kind store loop of the endpoint template). -/
def storeChildren (etype col : String) (raws : List Raw) (u pid : String)
    (s : Store) : Store :=
  raws.foldl (fun st raw =>
    upsertEnt col (parse_alm_response_to_entity etype raw u pid) st) s

/-- Per-attachment loop of the endpoint template: store the metadata
record, then download the binary and cache it; a failed download leaves
only the metadata (the failure is caught and logged, the loop
continues). -/
def storeAttachmentsWithDownload (col ptype : String) (raws : List Raw)
    (u pid : String) (dl : String → Except String String) (s : Store) : Store :=
  match raws with
  | [] => s
  | raw :: rest =>
    let att := parse_alm_response_to_entity "attachments" raw u pid
    let st1 := upsertEnt col att s
    let st2 := match dl att.id with
      | .ok content => upsertCache ⟨u, att.id, pid, ptype, att.name, content⟩ st1
      | .error _ => st1
    storeAttachmentsWithDownload col ptype rest u pid dl st2

/-- The keyed entity writes performed by `storeChildren`. -/
def entWrites (etype : String) (raws : List Raw) (u pid : String) :
    List ((String × String) × Entity) :=
  raws.map (fun raw =>
    (entKey (parse_alm_response_to_entity etype raw u pid),
     parse_alm_response_to_entity etype raw u pid))

/-- The cache writes performed by the attachment loop: one per
successfully downloaded attachment. -/
def cacheWrites (ptype : String) (raws : List Raw) (u pid : String)
    (dl : String → Except String String) :
    List ((String × String × String × String) × CacheEntry) :=
  raws.filterMap (fun raw =>
    match dl (parse_alm_response_to_entity "attachments" raw u pid).id with
    | .ok content =>
        some (cacheKey ⟨u, (parse_alm_response_to_entity "attachments" raw u pid).id,
                        pid, ptype,
                        (parse_alm_response_to_entity "attachments" raw u pid).name,
                        content⟩,
              ⟨u, (parse_alm_response_to_entity "attachments" raw u pid).id,
               pid, ptype,
               (parse_alm_response_to_entity "attachments" raw u pid).name, content⟩)
    | .error _ => none)

theorem upsertEnt_ents (c : String) (e : Entity) (s : Store) (c' : String) :
    (upsertEnt c e s).ents c' =
      if c' = c then replaceOne entKey (entKey e) e (s.ents c') else s.ents c' := rfl

theorem upsertEnt_cache (c : String) (e : Entity) (s : Store) :
    (upsertEnt c e s).cache = s.cache := rfl

theorem upsertCache_ents (ce : CacheEntry) (s : Store) :
    (upsertCache ce s).ents = s.ents := rfl

theorem upsertCache_cache (ce : CacheEntry) (s : Store) :
    (upsertCache ce s).cache = replaceOne cacheKey (cacheKey ce) ce s.cache := rfl

theorem wellKeyed_entWrites (etype : String) (raws : List Raw) (u pid : String) :
    WellKeyed entKey (entWrites etype raws u pid) := by
  intro w hw
  simp only [entWrites, List.mem_map] at hw
  obtain ⟨raw, _, rfl⟩ := hw
  rfl

theorem wellKeyed_cacheWrites (ptype : String) (raws : List Raw) (u pid : String)
    (dl : String → Except String String) :
    WellKeyed cacheKey (cacheWrites ptype raws u pid dl) := by
  intro w hw
  simp only [cacheWrites, List.mem_filterMap] at hw
  obtain ⟨raw, _, hmatch⟩ := hw
  cases hdl : dl (parse_alm_response_to_entity "attachments" raw u pid).id with
  | ok content =>
    rw [hdl] at hmatch
    simp only [Option.some.injEq] at hmatch
    subst hmatch
    rfl
  | error e =>
    rw [hdl] at hmatch
    simp at hmatch

/-- `storeChildren` only touches its own collection, where it applies
exactly its batch of keyed upserts. -/
theorem storeChildren_ents (etype col : String) (raws : List Raw)
    (u pid : String) :
    ∀ (s : Store) (c : String),
      (storeChildren etype col raws u pid s).ents c =
        if c = col then
          applyWrites entKey (entWrites etype raws u pid) (s.ents c)
        else s.ents c := by
  induction raws with
  | nil =>
    intro s c
    simp [storeChildren, entWrites, applyWrites]
  | cons raw rest ih =>
    intro s c
    have hcons : storeChildren etype col (raw :: rest) u pid s =
        storeChildren etype col rest u pid
          (upsertEnt col (parse_alm_response_to_entity etype raw u pid) s) := rfl
    rw [hcons, ih]
    by_cases hc : c = col
    · subst hc
      rw [if_pos rfl, if_pos rfl]
      rw [show entWrites etype (raw :: rest) u pid =
            (entKey (parse_alm_response_to_entity etype raw u pid),
             parse_alm_response_to_entity etype raw u pid) ::
              entWrites etype rest u pid from rfl,
          applyWrites_cons]
      rw [upsertEnt_ents, if_pos rfl]
    · rw [if_neg hc, if_neg hc, upsertEnt_ents, if_neg hc]

/-- `storeChildren` never writes the attachment cache. -/
theorem storeChildren_cache (etype col : String) (raws : List Raw)
    (u pid : String) :
    ∀ s : Store, (storeChildren etype col raws u pid s).cache = s.cache := by
  induction raws with
  | nil => intro s; rfl
  | cons raw rest ih =>
    intro s
    have hcons : storeChildren etype col (raw :: rest) u pid s =
        storeChildren etype col rest u pid
          (upsertEnt col (parse_alm_response_to_entity etype raw u pid) s) := rfl
    rw [hcons, ih, upsertEnt_cache]

/-- The attachment loop only touches its own metadata collection, where
it applies exactly its batch of keyed upserts. -/
theorem storeAtts_ents (col ptype : String) (raws : List Raw) (u pid : String)
    (dl : String → Except String String) :
    ∀ (s : Store) (c : String),
      (storeAttachmentsWithDownload col ptype raws u pid dl s).ents c =
        if c = col then
          applyWrites entKey (entWrites "attachments" raws u pid) (s.ents c)
        else s.ents c := by
  induction raws with
  | nil =>
    intro s c
    simp [storeAttachmentsWithDownload, entWrites, applyWrites]
  | cons raw rest ih =>
    intro s c
    simp only [storeAttachmentsWithDownload]
    cases hdl : dl (parse_alm_response_to_entity "attachments" raw u pid).id with
    | ok content =>
      show (storeAttachmentsWithDownload col ptype rest u pid dl
          (upsertCache
            ⟨u, (parse_alm_response_to_entity "attachments" raw u pid).id, pid, ptype,
             (parse_alm_response_to_entity "attachments" raw u pid).name, content⟩
            (upsertEnt col (parse_alm_response_to_entity "attachments" raw u pid) s))).ents c =
        if c = col then
          applyWrites entKey (entWrites "attachments" (raw :: rest) u pid) (s.ents c)
        else s.ents c
      rw [ih, upsertCache_ents]
      by_cases hc : c = col
      · subst hc
        simp [upsertEnt_ents, entWrites, applyWrites_cons]
      · simp [hc, upsertEnt_ents]
    | error e =>
      show (storeAttachmentsWithDownload col ptype rest u pid dl
          (upsertEnt col (parse_alm_response_to_entity "attachments" raw u pid) s)).ents c =
        if c = col then
          applyWrites entKey (entWrites "attachments" (raw :: rest) u pid) (s.ents c)
        else s.ents c
      rw [ih]
      by_cases hc : c = col
      · subst hc
        simp [upsertEnt_ents, entWrites, applyWrites_cons]
      · simp [hc, upsertEnt_ents]

/-- The attachment loop applies exactly its cache-write batch to the
attachment cache. -/
theorem storeAtts_cache (col ptype : String) (raws : List Raw) (u pid : String)
    (dl : String → Except String String) :
    ∀ s : Store,
      (storeAttachmentsWithDownload col ptype raws u pid dl s).cache =
        applyWrites cacheKey (cacheWrites ptype raws u pid dl) s.cache := by
  induction raws with
  | nil => intro s; rfl
  | cons raw rest ih =>
    intro s
    simp only [storeAttachmentsWithDownload]
    cases hdl : dl (parse_alm_response_to_entity "attachments" raw u pid).id with
    | ok content =>
      show (storeAttachmentsWithDownload col ptype rest u pid dl
          (upsertCache
            ⟨u, (parse_alm_response_to_entity "attachments" raw u pid).id, pid, ptype,
             (parse_alm_response_to_entity "attachments" raw u pid).name, content⟩
            (upsertEnt col (parse_alm_response_to_entity "attachments" raw u pid) s))).cache =
        applyWrites cacheKey (cacheWrites ptype (raw :: rest) u pid dl) s.cache
      rw [ih]
      simp [upsertCache_cache, upsertEnt_cache, cacheWrites, List.filterMap_cons, hdl,
        applyWrites_cons]
    | error e =>
      show (storeAttachmentsWithDownload col ptype rest u pid dl
          (upsertEnt col (parse_alm_response_to_entity "attachments" raw u pid) s)).cache =
        applyWrites cacheKey (cacheWrites ptype (raw :: rest) u pid dl) s.cache
      rw [ih]
      simp [upsertEnt_cache, cacheWrites, List.filterMap_cons, hdl]

/-- `POST /api/expand_testplan_folder` (endpoint 6): store subfolders,
tests and folder attachments of one folder (downloading each
attachment's binary), then query MongoDB for the counts and return the
counts only — never the child entities. -/
def expand_testplan_folder (env : ExpandEnv) (u folder_id : String)
    (s : Store) : Store × ExpandCounts :=
  let s1 := storeChildren "test-folders" "testplan_folders" env.subfolders
    u folder_id s
  let s2 := storeChildren "tests" "testplan_tests" env.tests u folder_id s1
  let s3 := storeAttachmentsWithDownload "testplan_folder_attachments"
    "test-folder" env.attachments u folder_id env.download s2
  (s3,
   ⟨countMatching (s3.ents "testplan_folders") u folder_id,
    countMatching (s3.ents "testplan_tests") u folder_id,
    countMatching (s3.ents "testplan_folder_attachments") u folder_id⟩)

/-- The upstream responses consumed by one test expansion. -/
structure TestExpandEnv where
  design_steps : List Raw
  attachments : List Raw
  download : String → Except String String

/-- `POST /api/expand_testplan_test` (endpoint 7): store the design
steps and test attachments of one test (NOT step attachments), return
counts only. -/
def expand_testplan_test (env : TestExpandEnv) (u test_id : String)
    (s : Store) : Store × Nat × Nat :=
  let s1 := storeChildren "design-steps" "testplan_test_design_steps"
    env.design_steps u test_id s
  let s2 := storeAttachmentsWithDownload "testplan_test_attachments" "test"
    env.attachments u test_id env.download s1
  (s2,
   countMatching (s2.ents "testplan_test_design_steps") u test_id,
   countMatching (s2.ents "testplan_test_attachments") u test_id)

/-- A folder expansion touches exactly the folder, test and
folder-attachment collections, applying its keyed upsert batches there. -/
theorem expand_folder_ents (env : ExpandEnv) (u fid : String) (s : Store)
    (c : String) :
    ((expand_testplan_folder env u fid s).1).ents c =
      if c = "testplan_folders" then
        applyWrites entKey (entWrites "test-folders" env.subfolders u fid) (s.ents c)
      else if c = "testplan_tests" then
        applyWrites entKey (entWrites "tests" env.tests u fid) (s.ents c)
      else if c = "testplan_folder_attachments" then
        applyWrites entKey (entWrites "attachments" env.attachments u fid) (s.ents c)
      else s.ents c := by
  show (storeAttachmentsWithDownload "testplan_folder_attachments" "test-folder"
      env.attachments u fid env.download
      (storeChildren "tests" "testplan_tests" env.tests u fid
        (storeChildren "test-folders" "testplan_folders" env.subfolders u fid s))).ents c
    = _
  rw [storeAtts_ents, storeChildren_ents, storeChildren_ents]
  have ne1 : ("testplan_folders" : String) ≠ "testplan_tests" := by decide
  have ne2 : ("testplan_folders" : String) ≠ "testplan_folder_attachments" := by decide
  have ne3 : ("testplan_tests" : String) ≠ "testplan_folder_attachments" := by decide
  by_cases h1 : c = "testplan_folders"
  · subst h1
    simp [ne1, ne2]
  · by_cases h2 : c = "testplan_tests"
    · subst h2
      simp [ne3, Ne.symm ne1]
    · by_cases h3 : c = "testplan_folder_attachments"
      · subst h3
        simp [Ne.symm ne2, Ne.symm ne3]
      · simp [h1, h2, h3]

/-- A folder expansion applies exactly its cache-write batch to the
attachment cache. -/
theorem expand_folder_cache (env : ExpandEnv) (u fid : String) (s : Store) :
    ((expand_testplan_folder env u fid s).1).cache =
      applyWrites cacheKey
        (cacheWrites "test-folder" env.attachments u fid env.download) s.cache := by
  show (storeAttachmentsWithDownload "testplan_folder_attachments" "test-folder"
      env.attachments u fid env.download
      (storeChildren "tests" "testplan_tests" env.tests u fid
        (storeChildren "test-folders" "testplan_folders" env.subfolders u fid s))).cache
    = _
  rw [storeAtts_cache, storeChildren_cache, storeChildren_cache]

/-- The store invariant: every entity collection has unique
`(owner_user, id)` keys (hence unique `(owner_user, entity_type, id)`
across the store) and the attachment cache has unique
`(user, attachment_id, parent_id, parent_type)` keys. -/
def StoreUnique (s : Store) : Prop :=
  (∀ c, ((s.ents c).map entKey).Nodup) ∧ (s.cache.map cacheKey).Nodup

/-- C3: for every parent folder and identical upstream responses,
running `expand_testplan_folder` twice leaves the document store in a
state identical to running it once — every write is a
replace-on-conflict upsert keyed by `(owner_user, entity_type, id)` (or
the cache key for binaries) — and the key uniqueness invariant is
preserved, so no duplicate documents are ever inserted. -/
theorem expand_testplan_folder_idempotent (env : ExpandEnv) (u fid : String)
    (s : Store) (h : StoreUnique s) :
    (expand_testplan_folder env u fid
        (expand_testplan_folder env u fid s).1).1 =
      (expand_testplan_folder env u fid s).1 ∧
    StoreUnique (expand_testplan_folder env u fid s).1 := by
  constructor
  · refine Store.ext (funext fun c => ?_) ?_
    · rw [expand_folder_ents, expand_folder_ents]
      by_cases h1 : c = "testplan_folders"
      · subst h1
        simp only [if_pos rfl]
        exact applyWrites_idem entKey _ (wellKeyed_entWrites _ _ _ _) _ (h.1 _)
      · by_cases h2 : c = "testplan_tests"
        · subst h2
          simp only [if_neg (by decide : ¬("testplan_tests" : String) = "testplan_folders"),
            if_pos rfl]
          exact applyWrites_idem entKey _ (wellKeyed_entWrites _ _ _ _) _ (h.1 _)
        · by_cases h3 : c = "testplan_folder_attachments"
          · subst h3
            simp only [if_neg (by decide :
                ¬("testplan_folder_attachments" : String) = "testplan_folders"),
              if_neg (by decide :
                ¬("testplan_folder_attachments" : String) = "testplan_tests"),
              if_pos rfl]
            exact applyWrites_idem entKey _ (wellKeyed_entWrites _ _ _ _) _ (h.1 _)
          · simp only [if_neg h1, if_neg h2, if_neg h3]
    · rw [expand_folder_cache, expand_folder_cache]
      exact applyWrites_idem cacheKey _ (wellKeyed_cacheWrites _ _ _ _ _) _ h.2
  · constructor
    · intro c
      rw [expand_folder_ents]
      split_ifs with h1 h2 h3
      · exact nodup_keys_applyWrites entKey _ (wellKeyed_entWrites _ _ _ _) _ (h.1 c)
      · exact nodup_keys_applyWrites entKey _ (wellKeyed_entWrites _ _ _ _) _ (h.1 c)
      · exact nodup_keys_applyWrites entKey _ (wellKeyed_entWrites _ _ _ _) _ (h.1 c)
      · exact h.1 c
    · rw [expand_folder_cache]
      exact nodup_keys_applyWrites cacheKey _ (wellKeyed_cacheWrites _ _ _ _ _) _ h.2

/-- Fixture subfolder F2 of the end-to-end scenario. -/
def rawF2 : Raw := [("id", "2"), ("name", "Folder F2")]

/-- Fixture subfolder F3. -/
def rawF3 : Raw := [("id", "3"), ("name", "Folder F3")]

/-- Fixture test T1. -/
def rawT1 : Raw := [("id", "100"), ("name", "Test T1")]

/-- The fixture folder F1 (id "1"): two subfolders, one test, no folder
attachments. -/
def fixtureEnv : ExpandEnv :=
  { subfolders := [rawF2, rawF3], tests := [rawT1], attachments := [],
    download := fun _ => .error "offline" }

/-- Fixture design steps of test T1. -/
def rawS1 : Raw := [("id", "1001"), ("name", "Step 1")]

/-- Second fixture design step of test T1. -/
def rawS2 : Raw := [("id", "1002"), ("name", "Step 2")]

/-- The fixture test T1's own children: two design steps, no test
attachments. -/
def fixtureTestEnv : TestExpandEnv :=
  { design_steps := [rawS1, rawS2], attachments := [],
    download := fun _ => .error "offline" }

/-- C3 witness: the idempotence theorem applied to the fixture folder
expansion starting from the empty store. -/
theorem expand_testplan_folder_idempotent_witness :
    StoreUnique emptyStore ∧
      ((expand_testplan_folder fixtureEnv "alice" "1"
          (expand_testplan_folder fixtureEnv "alice" "1" emptyStore).1).1 =
        (expand_testplan_folder fixtureEnv "alice" "1" emptyStore).1 ∧
      StoreUnique (expand_testplan_folder fixtureEnv "alice" "1" emptyStore).1) :=
  ⟨⟨fun _ => List.nodup_nil, List.nodup_nil⟩,
   expand_testplan_folder_idempotent fixtureEnv "alice" "1" emptyStore
     ⟨fun _ => List.nodup_nil, List.nodup_nil⟩⟩

/-- C4: a folder expansion returns only aggregate counts per child kind
and writes only the collections of the folder's immediate children: for
every environment and store, every collection other than
`testplan_folders`, `testplan_tests` and `testplan_folder_attachments`
is left unchanged; on the fixture, expanding F1 returns counts
`{subfolders := 2, tests := 1, attachments := 0}` and leaves the
design-step and test-attachment collections empty — they are populated
only once `expand_testplan_test` is called on T1, which then stores
T1's two design steps. -/
theorem expand_one_level_contract :
    (∀ (env : ExpandEnv) (u fid : String) (s : Store) (c : String),
      c ≠ "testplan_folders" → c ≠ "testplan_tests" →
      c ≠ "testplan_folder_attachments" →
      ((expand_testplan_folder env u fid s).1).ents c = s.ents c) ∧
    ((expand_testplan_folder fixtureEnv "alice" "1" emptyStore).2 =
        ⟨2, 1, 0⟩ ∧
      ((expand_testplan_folder fixtureEnv "alice" "1" emptyStore).1).ents
          "testplan_test_design_steps" = [] ∧
      ((expand_testplan_folder fixtureEnv "alice" "1" emptyStore).1).ents
          "testplan_test_attachments" = [] ∧
      (expand_testplan_test fixtureTestEnv "alice" "100"
          (expand_testplan_folder fixtureEnv "alice" "1" emptyStore).1).2.1 = 2) := by
  constructor
  · intro env u fid s c h1 h2 h3
    rw [expand_folder_ents]
    simp [h1, h2, h3]
  · refine ⟨by decide, ?_, ?_, by decide⟩
    · rw [expand_folder_ents]
      simp [emptyStore]
    · rw [expand_folder_ents]
      simp [emptyStore]

/-- C4 witness: the frame part of the one-level contract applied at the
defects collection and the fixture expansion. -/
theorem expand_one_level_contract_witness :
    (("defects" : String) ≠ "testplan_folders" ∧
      ("defects" : String) ≠ "testplan_tests" ∧
      ("defects" : String) ≠ "testplan_folder_attachments") ∧
    ((expand_testplan_folder fixtureEnv "alice" "1" emptyStore).1).ents
        "defects" = emptyStore.ents "defects" :=
  ⟨⟨by decide, by decide, by decide⟩,
   expand_one_level_contract.1 fixtureEnv "alice" "1" emptyStore "defects"
     (by decide) (by decide) (by decide)⟩

/-! ## Attachment materializer (`expand_with_attachments`,
docs/API_FLOW_ARCHITECTURE.md "Attachment Handling")

For each attachment: parse and store the metadata record in the
collection of its parent kind, then download the binary and cache it.
Modelled from the spec: the per-attachment try/except of the backend is
absent from src/ — per §4.5 a download failure is caught and logged at
the granularity of that single attachment, the metadata record is still
stored, the loop continues, and the counters distinguish attachments
discovered from attachments downloaded. -/

/-- The attachment loop with its two counters: `disc` counts every
attachment processed (discovered), `down` only successful downloads. -/
def attLoop (col ptype : String) (raws : List Raw) (u pid : String)
    (dl : String → Except String String) (s : Store) (disc down : Nat) :
    Store × Nat × Nat :=
  match raws with
  | [] => (s, disc, down)
  | raw :: rest =>
    let att := parse_alm_response_to_entity "attachments" raw u pid
    let s1 := upsertEnt col att s
    match dl att.id with
    | .ok content =>
        attLoop col ptype rest u pid dl
          (upsertCache ⟨u, att.id, pid, ptype, att.name, content⟩ s1)
          (disc + 1) (down + 1)
    | .error _ => attLoop col ptype rest u pid dl s1 (disc + 1) down

/-- `POST /api/expand_with_attachments`: route to the parent kind's
collection (failing fast on an unknown kind), then run the attachment
loop from zeroed counters. -/
def expand_with_attachments (raws : List Raw) (u pid ptype : String)
    (dl : String → Except String String) (s : Store) :
    Except String (Store × Nat × Nat) :=
  match resolveAttachmentCollection ptype with
  | some col => .ok (attLoop col ptype raws u pid dl s 0 0)
  | none => .error ("Unknown attachment parent type: " ++ ptype)

/-- The attachment loop's store effect is the per-attachment
store-and-download pass, and its counters count every processed
attachment and every successful download. -/
theorem attLoop_spec (col ptype : String) (u pid : String)
    (dl : String → Except String String) :
    ∀ (raws : List Raw) (s : Store) (disc down : Nat),
      attLoop col ptype raws u pid dl s disc down =
        (storeAttachmentsWithDownload col ptype raws u pid dl s,
         disc + raws.length,
         down + (raws.filter (fun raw =>
           (dl (parse_alm_response_to_entity "attachments" raw u pid).id).isOk)).length) := by
  intro raws
  induction raws with
  | nil =>
    intro s disc down
    simp [attLoop, storeAttachmentsWithDownload]
  | cons raw rest ih =>
    intro s disc down
    simp only [attLoop]
    cases hdl : dl (parse_alm_response_to_entity "attachments" raw u pid).id with
    | ok content =>
      show attLoop col ptype rest u pid dl
          (upsertCache
            ⟨u, (parse_alm_response_to_entity "attachments" raw u pid).id, pid, ptype,
             (parse_alm_response_to_entity "attachments" raw u pid).name, content⟩
            (upsertEnt col (parse_alm_response_to_entity "attachments" raw u pid) s))
          (disc + 1) (down + 1) = _
      rw [ih]
      have hstore : storeAttachmentsWithDownload col ptype (raw :: rest) u pid dl s =
          storeAttachmentsWithDownload col ptype rest u pid dl
            (upsertCache
              ⟨u, (parse_alm_response_to_entity "attachments" raw u pid).id, pid, ptype,
               (parse_alm_response_to_entity "attachments" raw u pid).name, content⟩
              (upsertEnt col (parse_alm_response_to_entity "attachments" raw u pid) s)) := by
        simp only [storeAttachmentsWithDownload, hdl]
      rw [hstore]
      have hfil : List.filter (fun raw =>
            (dl (parse_alm_response_to_entity "attachments" raw u pid).id).isOk)
            (raw :: rest) =
          raw :: List.filter (fun raw =>
            (dl (parse_alm_response_to_entity "attachments" raw u pid).id).isOk)
            rest := by
        simp [List.filter_cons, hdl, Except.isOk, Except.toBool]
      rw [hfil]
      simp only [Prod.mk.injEq, List.length_cons, eq_self_iff_true, true_and]
      omega
    | error e =>
      show attLoop col ptype rest u pid dl
          (upsertEnt col (parse_alm_response_to_entity "attachments" raw u pid) s)
          (disc + 1) down = _
      rw [ih]
      have hstore : storeAttachmentsWithDownload col ptype (raw :: rest) u pid dl s =
          storeAttachmentsWithDownload col ptype rest u pid dl
            (upsertEnt col (parse_alm_response_to_entity "attachments" raw u pid) s) := by
        simp only [storeAttachmentsWithDownload, hdl]
      rw [hstore]
      have hfil : List.filter (fun raw =>
            (dl (parse_alm_response_to_entity "attachments" raw u pid).id).isOk)
            (raw :: rest) =
          List.filter (fun raw =>
            (dl (parse_alm_response_to_entity "attachments" raw u pid).id).isOk)
            rest := by
        simp [List.filter_cons, hdl, Except.isOk, Except.toBool]
      rw [hfil]
      simp only [Prod.mk.injEq, List.length_cons, eq_self_iff_true, true_and, and_true]
      omega

/-- C7: for every attachment batch in which some content downloads
fail, `expand_with_attachments` still runs to completion over every
attachment: each attachment's metadata record is stored in the parent
kind's collection regardless of its download outcome, the discovered
counter equals the total number of attachments, and the downloaded
counter counts exactly the successful downloads — the gap between the
two counters is the only trace of the failures. -/
theorem expand_with_attachments_failure_policy (raws : List Raw)
    (u pid ptype col : String) (dl : String → Except String String) (s : Store)
    (h : resolveAttachmentCollection ptype = some col) :
    expand_with_attachments raws u pid ptype dl s =
      .ok (storeAttachmentsWithDownload col ptype raws u pid dl s,
           raws.length,
           (raws.filter (fun raw =>
             (dl (parse_alm_response_to_entity "attachments" raw u pid).id).isOk)).length) ∧
    ∀ raw ∈ raws,
      ∃ d ∈ (storeAttachmentsWithDownload col ptype raws u pid dl s).ents col,
        entKey d = (u, (parse_alm_response_to_entity "attachments" raw u pid).id) := by
  constructor
  · simp only [expand_with_attachments, h]
    rw [attLoop_spec]
    simp
  · intro raw hraw
    rw [storeAtts_ents, if_pos rfl]
    have hkey : ((entKey (parse_alm_response_to_entity "attachments" raw u pid),
        parse_alm_response_to_entity "attachments" raw u pid) :
          (String × String) × Entity) ∈ entWrites "attachments" raws u pid := by
      simp only [entWrites, List.mem_map]
      exact ⟨raw, hraw, rfl⟩
    have hmem := mem_keys_applyWrites_self entKey
      (entWrites "attachments" raws u pid) (wellKeyed_entWrites _ _ _ _)
      (s.ents col) _ hkey
    simp only [List.mem_map] at hmem
    obtain ⟨d, hd, hdk⟩ := hmem
    exact ⟨d, hd, hdk⟩

/-- A fixture attachment whose download fails. -/
def rawA1 : Raw := [("id", "9"), ("name", "a.txt")]

/-- A fixture attachment whose download succeeds. -/
def rawA2 : Raw := [("id", "10"), ("name", "b.png")]

/-- A download capability that fails for attachment "9" only. -/
def flakyDownload : String → Except String String :=
  fun i => if i = "9" then .error "download failed" else .ok "bytes"

/-- C7 witness: the failure-policy theorem at a concrete batch of two
attachments with one failing download, under parent kind test-folder. -/
theorem expand_with_attachments_failure_policy_witness :
    resolveAttachmentCollection "test-folder" = some "testplan_folder_attachments" ∧
    (expand_with_attachments [rawA1, rawA2] "alice" "1" "test-folder"
        flakyDownload emptyStore =
      .ok (storeAttachmentsWithDownload "testplan_folder_attachments" "test-folder"
             [rawA1, rawA2] "alice" "1" flakyDownload emptyStore,
           2, 1) ∧
    ∀ raw ∈ [rawA1, rawA2],
      ∃ d ∈ (storeAttachmentsWithDownload "testplan_folder_attachments" "test-folder"
          [rawA1, rawA2] "alice" "1" flakyDownload emptyStore).ents
            "testplan_folder_attachments",
        entKey d = ("alice",
          (parse_alm_response_to_entity "attachments" raw "alice" "1").id)) := by
  refine ⟨rfl, ?_⟩
  have h := expand_with_attachments_failure_policy [rawA1, rawA2] "alice" "1"
    "test-folder" "testplan_folder_attachments" flakyDownload emptyStore rfl
  exact ⟨h.1, h.2⟩

/-! ## Recursive extractor: `extract_folder_tree`
(docs/ALM_API_CONFIGURATION.md "Recursive Algorithm")

```
async def extract_folder_tree(folder_id, depth=0):
    if depth > 20:  # Prevent infinite recursion
        return {"error": "Max depth reached"}
    ...fetch subfolders, tests, folder attachments,
       per-test details and test attachments...
    for subfolder in subfolders:
        result["subfolders"].append(extract_folder_tree(subfolder.id, depth + 1))
```

The upstream tree is a family of child-listing capabilities over
numeric ids.  The guard `depth > 20` is equivalently carried as the
remaining allowance `21 - depth`, which makes the recursion structural:
an invocation with allowance `0` is exactly one with `depth > 20` and
returns the `"Max depth reached"` boundary marker without fetching.
Each invocation that does fetch appends its depth to a trace and the
boundary flag records whether the marker occurs anywhere in the
result. -/

/-- The upstream TestPlan tree. -/
structure TestPlanEnv where
  subfoldersOf : Nat → List Nat
  testsOf : Nat → List Nat
  folderAttachmentsOf : Nat → List Nat
  testAttachmentsOf : Nat → List Nat

/-- The nested extraction result: either the boundary marker
(`{"error": "Max depth reached"}`) or a folder node with its tests
(each with its attachments), its folder attachments, and its recursively
extracted subfolders. -/
inductive FolderTree where
  | maxDepth
  | node (folder_id : Nat) (tests : List (Nat × List Nat))
      (folderAttachments : List Nat) (subfolders : List FolderTree)

/-- The recursion of `extract_folder_tree` over the remaining depth
allowance `r` at current depth `d`: returns the result tree, the trace
of depths at which fetches were performed, and whether the boundary
marker occurs in the result. -/
def extractGo (env : TestPlanEnv) : Nat → Nat → Nat → FolderTree × List Nat × Bool
  | 0, _, _ => (.maxDepth, [], true)
  | Nat.succ r, d, fid =>
    let tests := (env.testsOf fid).map (fun t => (t, env.testAttachmentsOf t))
    let fatts := env.folderAttachmentsOf fid
    let subs := (env.subfoldersOf fid).map (fun sf => extractGo env r (d + 1) sf)
    (.node fid tests fatts (subs.map (fun p => p.1)),
     d :: (subs.map (fun p => p.2.1)).flatten,
     (subs.map (fun p => p.2.2)).any id)

/-- `extract_folder_tree(folder_id, depth)`: run the recursion with the
allowance `21 - depth` corresponding to the guard `depth > 20`. -/
def extract_folder_tree (env : TestPlanEnv) (folder_id depth : Nat) :
    FolderTree × List Nat × Bool :=
  extractGo env (21 - depth) depth folder_id

/-- The TestLab upstream tree (releases → cycles → test-sets →
runs/attachments). -/
structure TestLabEnv where
  cyclesOf : Nat → List Nat
  testSetsOf : Nat → List Nat
  runsOf : Nat → List Nat
  testSetAttachmentsOf : Nat → List Nat

/-- The TestLab recursive extraction (docs/TESTLAB_STRUCTURE.md "Depth
Limiting": limited to 20 levels): at each node gather the test sets
with their runs and attachments, and recurse into the child cycles
under the same allowance scheme.  Returns the gathered test sets, the
fetch-depth trace, and the boundary flag. -/
def extractLabGo (env : TestLabEnv) :
    Nat → Nat → Nat → List (Nat × List Nat × List Nat) × List Nat × Bool
  | 0, _, _ => ([], [], true)
  | Nat.succ r, d, nid =>
    let tsets := (env.testSetsOf nid).map
      (fun ts => (ts, env.runsOf ts, env.testSetAttachmentsOf ts))
    let subs := (env.cyclesOf nid).map (fun c => extractLabGo env r (d + 1) c)
    (tsets ++ (subs.map (fun p => p.1)).flatten,
     d :: (subs.map (fun p => p.2.1)).flatten,
     (subs.map (fun p => p.2.2)).any id)

/-- The TestLab walk from a release with the same 20-level ceiling. -/
def extract_testlab_tree (env : TestLabEnv) (release_id depth : Nat) :
    List (Nat × List Nat × List Nat) × List Nat × Bool :=
  extractLabGo env (21 - depth) depth release_id

/-- Modelled from the spec: the recursive-extraction job wrapper of the
backend (`main.py`, absent from src/) records a boundary condition in
the job's error/notes field when the depth ceiling aborted a descent;
the doc pseudocode returns `{"error": "Max depth reached"}` at the
boundary. -/
def extract_folder_tree_job_error (env : TestPlanEnv) (fid : Nat) : Option String :=
  if (extract_folder_tree env fid 0).2.2 then some "Max depth reached" else none

/-- Every depth in the fetch trace is below the current depth plus the
remaining allowance. -/
theorem extractGo_trace_bound (env : TestPlanEnv) :
    ∀ r d fid, ∀ x ∈ (extractGo env r d fid).2.1, x < d + r := by
  intro r
  induction r with
  | zero =>
    intro d fid x hx
    simp [extractGo] at hx
  | succ r ih =>
    intro d fid x hx
    simp only [extractGo, List.mem_cons, List.mem_flatten, List.mem_map] at hx
    rcases hx with rfl | ⟨l, ⟨p, ⟨sf, _, rfl⟩, rfl⟩, hxl⟩
    · omega
    · have := ih (d + 1) sf x hxl
      omega

/-- The TestLab analogue of the trace bound. -/
theorem extractLabGo_trace_bound (env : TestLabEnv) :
    ∀ r d nid, ∀ x ∈ (extractLabGo env r d nid).2.1, x < d + r := by
  intro r
  induction r with
  | zero =>
    intro d nid x hx
    simp [extractLabGo] at hx
  | succ r ih =>
    intro d nid x hx
    simp only [extractLabGo, List.mem_cons, List.mem_flatten, List.mem_map] at hx
    rcases hx with rfl | ⟨l, ⟨p, ⟨c, _, rfl⟩, rfl⟩, hxl⟩
    · omega
    · have := ih (d + 1) c x hxl
      omega

/-- A synthetic linear TestPlan tree of depth 25: folder `n` has the
single subfolder `n + 1` for `n < 25`. -/
def linearEnv25 : TestPlanEnv :=
  { subfoldersOf := fun n => if n < 25 then [n + 1] else [],
    testsOf := fun _ => [],
    folderAttachmentsOf := fun _ => [],
    testAttachmentsOf := fun _ => [] }

/-- C2: the recursive extraction never descends past recursion level
20: for every upstream tree, every depth at which
`extract_folder_tree` (or its TestLab equivalent) performs fetches is
at most 20; and on a synthetic tree of depth 25 the descent is aborted
at the ceiling and the boundary condition `"Max depth reached"` is
recorded in the job's error/notes field. -/
theorem extract_folder_tree_depth_ceiling :
    (∀ (env : TestPlanEnv) (fid : Nat),
      ∀ x ∈ (extract_folder_tree env fid 0).2.1, x ≤ 20) ∧
    (∀ (env : TestLabEnv) (rid : Nat),
      ∀ x ∈ (extract_testlab_tree env rid 0).2.1, x ≤ 20) ∧
    extract_folder_tree_job_error linearEnv25 0 = some "Max depth reached" := by
  refine ⟨?_, ?_, ?_⟩
  · intro env fid x hx
    have := extractGo_trace_bound env 21 0 fid x hx
    omega
  · intro env rid x hx
    have := extractLabGo_trace_bound env 21 0 rid x hx
    omega
  · decide

/-- C2 witness: the ceiling theorem applied to the fetch at depth 0 of
the synthetic depth-25 tree. -/
theorem extract_folder_tree_depth_ceiling_witness :
    (0 ∈ (extract_folder_tree linearEnv25 0 0).2.1) ∧ (0 : Nat) ≤ 20 :=
  ⟨by decide,
   extract_folder_tree_depth_ceiling.1 linearEnv25 0 0 (by decide)⟩

/-! ## Job tracker and partial-failure durability

Modelled from the spec: the background task `recursive_folder_extraction`
of the backend (`main.py`) is absent from src/ (IMPLEMENTATION_PLAN.md
shows only its skeleton and the job document it maintains in
`testplan_extraction_results`).  Per §4.6/§7: any fatal (non-attachment)
fetch error at any node aborts the walk and sets the job to `failed`
with the triggering error; counters incremented and records written
before the failure are preserved (no rollback); the job reaches
`completed` only when the full traversal finishes without a fatal
error. -/

/-- Job status as stored in the extraction-results document. -/
inductive JobStatus where
  | pending
  | in_progress
  | completed
  | failed
deriving DecidableEq, Repr

/-- The extraction job document: status, recorded error, running
counters, and the folder records written so far (in write order). -/
structure Job where
  status : JobStatus
  error : Option String
  folders_extracted : Nat
  tests_extracted : Nat
  writes : List Nat
deriving DecidableEq, Repr

/-- Upstream capabilities whose fetches can fail fatally. -/
structure FailEnv where
  subfoldersOf : Nat → Except String (List Nat)
  testsOf : Nat → Except String (List Nat)

/-- The freshly created job record (`status: "in_progress"`, zeroed
counters). -/
def initialJob : Job :=
  { status := .in_progress, error := none, folders_extracted := 0,
    tests_extracted := 0, writes := [] }

/-- One node of the recursive walk: fetch the node's subfolders and
tests (either fetch failing fatally marks the job `failed` with the
triggering error and aborts), store the node and bump the counters
immediately, then recurse into each subfolder in order, skipping the
rest once the job has failed.  The depth allowance works as in
`extract_folder_tree`. -/
def walkJob (env : FailEnv) : Nat → Nat → Job → Job
  | 0, _, job => job
  | Nat.succ r, fid, job =>
    match env.subfoldersOf fid with
    | .error e => { job with status := .failed, error := some e }
    | .ok subs =>
      match env.testsOf fid with
      | .error e => { job with status := .failed, error := some e }
      | .ok tests =>
        let job1 := { job with
          folders_extracted := job.folders_extracted + 1,
          tests_extracted := job.tests_extracted + tests.length,
          writes := job.writes ++ [fid] }
        subs.foldl (fun j sf =>
          if j.status = .failed then j else walkJob env r sf j) job1

/-- `extract_testplan_folder_recursive`: run the walk from the fresh
job; mark the job `completed` only if no fatal error occurred. -/
def extract_recursive_job (env : FailEnv) (rootId : Nat) : Job :=
  let j := walkJob env 21 rootId initialJob
  if j.status = .failed then j else { j with status := .completed }

/-- Progress between two job states: counters have not decreased and the
earlier writes are an unchanged prefix of the later ones. -/
def JobProgress (j j' : Job) : Prop :=
  j.folders_extracted ≤ j'.folders_extracted ∧
  j.tests_extracted ≤ j'.tests_extracted ∧
  ∃ t, j'.writes = j.writes ++ t

theorem jobProgress_refl (j : Job) : JobProgress j j :=
  ⟨le_refl _, le_refl _, [], by simp⟩

theorem jobProgress_trans {a b c : Job} (h1 : JobProgress a b)
    (h2 : JobProgress b c) : JobProgress a c := by
  obtain ⟨hf1, ht1, t1, hw1⟩ := h1
  obtain ⟨hf2, ht2, t2, hw2⟩ := h2
  exact ⟨le_trans hf1 hf2, le_trans ht1 ht2, t1 ++ t2, by rw [hw2, hw1, List.append_assoc]⟩

/-- The walk never rolls anything back: counters only grow and written
records are preserved. -/
theorem walkJob_progress (env : FailEnv) :
    ∀ (r fid : Nat) (job : Job), JobProgress job (walkJob env r fid job) := by
  intro r
  induction r with
  | zero => intro fid job; exact jobProgress_refl job
  | succ r ih =>
    intro fid job
    simp only [walkJob]
    cases env.subfoldersOf fid with
    | error e => exact ⟨le_refl _, le_refl _, [], by simp⟩
    | ok subs =>
      cases env.testsOf fid with
      | error e => exact ⟨le_refl _, le_refl _, [], by simp⟩
      | ok tests =>
        have hfold : ∀ (l : List Nat) (j : Job),
            JobProgress j (l.foldl (fun j sf =>
              if j.status = .failed then j else walkJob env r sf j) j) := by
          intro l
          induction l with
          | nil => intro j; exact jobProgress_refl j
          | cons sf rest ihl =>
            intro j
            simp only [List.foldl_cons]
            refine jobProgress_trans ?_ (ihl _)
            by_cases hj : j.status = JobStatus.failed
            · rw [if_pos hj]
              exact jobProgress_refl j
            · rw [if_neg hj]
              exact ih sf j
        refine jobProgress_trans ?_ (hfold subs _)
        exact ⟨Nat.le_succ _, Nat.le_add_right _ _, [fid], rfl⟩

/-- A failed job always carries a recorded error. -/
def ErrorRecorded (j : Job) : Prop := j.status = .failed → j.error.isSome

theorem walkJob_error_recorded (env : FailEnv) :
    ∀ (r fid : Nat) (job : Job), ErrorRecorded job →
      ErrorRecorded (walkJob env r fid job) := by
  intro r
  induction r with
  | zero => intro fid job h; exact h
  | succ r ih =>
    intro fid job h
    simp only [walkJob]
    cases env.subfoldersOf fid with
    | error e => intro _; rfl
    | ok subs =>
      cases env.testsOf fid with
      | error e => intro _; rfl
      | ok tests =>
        have hfold : ∀ (l : List Nat) (j : Job), ErrorRecorded j →
            ErrorRecorded (l.foldl (fun j sf =>
              if j.status = .failed then j else walkJob env r sf j) j) := by
          intro l
          induction l with
          | nil => intro j hj; exact hj
          | cons sf rest ihl =>
            intro j hj
            simp only [List.foldl_cons]
            refine ihl _ ?_
            by_cases hjf : j.status = JobStatus.failed
            · rw [if_pos hjf]
              exact hj
            · rw [if_neg hjf]
              exact ih sf j hj
        exact hfold subs _ (fun hst => h hst)

/-- The failure scenario of §8: the root folder 1 has five subfolders
2…6; the fetch for the 3rd subfolder (id 4) fails fatally. -/
def scenarioEnv : FailEnv :=
  { subfoldersOf := fun n =>
      if n = 1 then .ok [2, 3, 4, 5, 6]
      else if n = 4 then .error "fetch failed"
      else .ok [],
    testsOf := fun _ => .ok [] }

/-- The same tree with no failure. -/
def scenarioEnvOk : FailEnv :=
  { subfoldersOf := fun n => if n = 1 then .ok [2, 3, 4, 5, 6] else .ok [],
    testsOf := fun _ => .ok [] }

/-- C6: partial-failure durability of the recursive extraction.  The
walk never rolls back counters or written records; every finished job
is either `completed`, or `failed` with the triggering error recorded;
on the scenario where the fetch for the 3rd of 5 subfolders fails
fatally, the job ends `failed` with that error while still holding the
counters and records of the root and the 2 subfolders fully processed
before the failure; and the identical tree without the failure ends
`completed` with the full counts. -/
theorem extraction_partial_failure_durability :
    (∀ (env : FailEnv) (r fid : Nat) (job : Job),
      JobProgress job (walkJob env r fid job)) ∧
    (∀ (env : FailEnv) (rid : Nat),
      (extract_recursive_job env rid).status = .completed ∨
      ((extract_recursive_job env rid).status = .failed ∧
        ((extract_recursive_job env rid).error).isSome)) ∧
    extract_recursive_job scenarioEnv 1 =
      { status := .failed, error := some "fetch failed",
        folders_extracted := 3, tests_extracted := 0, writes := [1, 2, 3] } ∧
    extract_recursive_job scenarioEnvOk 1 =
      { status := .completed, error := none,
        folders_extracted := 6, tests_extracted := 0,
        writes := [1, 2, 3, 4, 5, 6] } := by
  refine ⟨fun env => walkJob_progress env, ?_, by decide, by decide⟩
  intro env rid
  by_cases hf : (walkJob env 21 rid initialJob).status = JobStatus.failed
  · right
    have hrec := walkJob_error_recorded env 21 rid initialJob
      (fun hst => by simp [initialJob] at hst)
    simp only [extract_recursive_job, if_pos hf]
    exact ⟨hf, hrec hf⟩
  · left
    simp only [extract_recursive_job, if_neg hf]

/-! ## Endpoint error fallback (docs/API_FLOW_ARCHITECTURE.md,
"Error Handling": ALM Unreachable / ALM Error Response)

```
except httpx.RequestError:
    cached = db[collection].find(filter)
    if cached: return {success, cached: True, warning: "…ALM unavailable"}
    else: raise HTTPException(503, "ALM unavailable and no cached data")
if response.status_code != 200:
    cached = db[collection].find(filter)
    if cached: return {success, cached: True, warning: "ALM error …"}
    else: raise HTTPException(502, "ALM error: …")
```
-/

/-- Outcome of the upstream ALM call: a successful 200 response with
entities, a connection error, or a non-200 status. -/
inductive AlmOutcome where
  | ok (entities : List Raw)
  | connError (msg : String)
  | httpStatus (code : Nat)

/-- An endpoint's successful JSON body: success flag, cache marker,
optional warning, and the display-formatted records. -/
structure EndpointResponse where
  success : Bool
  cached : Bool
  warning : Option String
  data : List (List (String × String))
deriving DecidableEq, Repr

/-- The matching cached records for the endpoint's query filter. -/
def cachedFor (s : Store) (col u pid : String) : List Entity :=
  (s.ents col).filter (fun d => d.user == u && d.parent_id == pid)

/-- The standard list-endpoint template with its error fallback: on a
200 response store the entities and answer from MongoDB; on a
connection error or a non-200 status answer from the cache with a
warning when cached records exist, and raise HTTP 503 (unreachable) or
502 (upstream error) only when none do. -/
def list_endpoint (outcome : AlmOutcome) (etype col u pid : String)
    (s : Store) : Except (Nat × String) (EndpointResponse × Store) :=
  match outcome with
  | .ok raws =>
    let s' := storeChildren etype col raws u pid s
    .ok ({ success := true, cached := false, warning := none,
           data := (cachedFor s' col u pid).map entity_to_display_format }, s')
  | .connError _ =>
    let cached := cachedFor s col u pid
    if cached.isEmpty then
      .error (503, "ALM unavailable and no cached data")
    else
      .ok ({ success := true, cached := true,
             warning := some "Data from cache, ALM unavailable",
             data := cached.map entity_to_display_format }, s)
  | .httpStatus _code =>
    let cached := cachedFor s col u pid
    if cached.isEmpty then
      .error (502, "ALM error")
    else
      .ok ({ success := true, cached := true,
             warning := some "ALM error, returning cached data",
             data := cached.map entity_to_display_format }, s)

/-- C10: when the upstream ALM call fails (connection error or
non-success status) the endpoint answers success from the cache with a
warning marker whenever the target collection holds matching cached
records, leaving the store untouched; it raises an HTTP failure — 503
for unreachable, 502 for an error status — only when no cached data
exists for the query; and every raised failure implies the cache was
empty. -/
theorem alm_failure_cached_fallback (etype col u pid : String) (s : Store) :
    (∀ msg, cachedFor s col u pid ≠ [] →
      ∃ resp, list_endpoint (.connError msg) etype col u pid s = .ok (resp, s) ∧
        resp.success = true ∧ resp.cached = true ∧ resp.warning ≠ none) ∧
    (∀ msg, cachedFor s col u pid = [] →
      list_endpoint (.connError msg) etype col u pid s =
        .error (503, "ALM unavailable and no cached data")) ∧
    (∀ code, cachedFor s col u pid ≠ [] →
      ∃ resp, list_endpoint (.httpStatus code) etype col u pid s = .ok (resp, s) ∧
        resp.success = true ∧ resp.cached = true ∧ resp.warning ≠ none) ∧
    (∀ code, cachedFor s col u pid = [] →
      list_endpoint (.httpStatus code) etype col u pid s = .error (502, "ALM error")) ∧
    (∀ (outcome : AlmOutcome) (c : Nat) (m : String),
      list_endpoint outcome etype col u pid s = .error (c, m) →
      cachedFor s col u pid = [] ∧ (c = 503 ∨ c = 502)) := by
  refine ⟨?_, ?_, ?_, ?_, ?_⟩
  · intro msg hne
    have hie : ¬ (cachedFor s col u pid).isEmpty := by
      simpa [List.isEmpty_iff] using hne
    refine ⟨{ success := true, cached := true,
              warning := some "Data from cache, ALM unavailable",
              data := (cachedFor s col u pid).map entity_to_display_format },
      ?_, rfl, rfl, by simp⟩
    simp only [list_endpoint]
    rw [if_neg hie]
  · intro msg he
    simp only [list_endpoint]
    rw [if_pos (by simp [he])]
  · intro code hne
    have hie : ¬ (cachedFor s col u pid).isEmpty := by
      simpa [List.isEmpty_iff] using hne
    refine ⟨{ success := true, cached := true,
              warning := some "ALM error, returning cached data",
              data := (cachedFor s col u pid).map entity_to_display_format },
      ?_, rfl, rfl, by simp⟩
    simp only [list_endpoint]
    rw [if_neg hie]
  · intro code he
    simp only [list_endpoint]
    rw [if_pos (by simp [he])]
  · intro outcome c m h
    cases outcome with
    | ok raws => simp [list_endpoint] at h
    | connError msg =>
      simp only [list_endpoint] at h
      by_cases hie : (cachedFor s col u pid).isEmpty
      · rw [if_pos hie] at h
        simp only [Except.error.injEq, Prod.mk.injEq] at h
        exact ⟨List.isEmpty_iff.mp hie, Or.inl h.1.symm⟩
      · rw [if_neg hie] at h
        simp at h
    | httpStatus code' =>
      simp only [list_endpoint] at h
      by_cases hie : (cachedFor s col u pid).isEmpty
      · rw [if_pos hie] at h
        simp only [Except.error.injEq, Prod.mk.injEq] at h
        exact ⟨List.isEmpty_iff.mp hie, Or.inr h.1.symm⟩
      · rw [if_neg hie] at h
        simp at h

/-- A store holding one cached folder record matching user "alice",
parent "1". -/
def cachedStore : Store :=
  upsertEnt "testplan_folders"
    (parse_alm_response_to_entity "test-folders" rawF2 "alice" "1") emptyStore

/-- C10 witness: the fallback theorem applied with a non-empty cache
(connection error answered from cache) and with an empty cache
(connection error escalated as 503). -/
theorem alm_failure_cached_fallback_witness :
    (cachedFor cachedStore "testplan_folders" "alice" "1" ≠ [] ∧
      ∃ resp, list_endpoint (.connError "down") "test-folders" "testplan_folders"
          "alice" "1" cachedStore = .ok (resp, cachedStore) ∧
        resp.success = true ∧ resp.cached = true ∧ resp.warning ≠ none) ∧
    (cachedFor emptyStore "testplan_folders" "alice" "1" = [] ∧
      list_endpoint (.connError "down") "test-folders" "testplan_folders"
          "alice" "1" emptyStore = .error (503, "ALM unavailable and no cached data")) :=
  ⟨⟨by decide,
    (alm_failure_cached_fallback "test-folders" "testplan_folders" "alice" "1"
      cachedStore).1 "down" (by decide)⟩,
   ⟨rfl,
    (alm_failure_cached_fallback "test-folders" "testplan_folders" "alice" "1"
      emptyStore).2.1 "down" rfl⟩⟩

end AlmExtraction
